import Mathlib

/-!
Verification of the patch-application engine (Edit Builder + Patch Applier).

The Edit Builder is embedded from `src/lib/util/rule-fixer.js`.  JavaScript
functions may throw, so each builder is embedded into an exception monad
(`Except BuilderError`); the source bodies contain no `throw`, so every body
is a plain `Except.ok` return.

The Patch Applier (`applyFixes`) is not present in the source tree (only its
test file is); it is modelled from the specification's algorithm
(right-to-left greedy interval merge), and checked against the concrete
scenarios of the test file.

Strings are modelled as `List Char`; offsets as `Int` (JavaScript numbers may
be negative).
-/

namespace TextFix

/-- An edit: a half-open offset interval `[range.1, range.2)` into the
original text, plus the replacement content (data model of rule-fixer.js). -/
structure Edit where
  range : Int × Int
  text : List Char
deriving DecidableEq, Repr

/-- The error class the spec says builder construction raises on an invalid
range.  The embedded source code never raises it. -/
inductive BuilderError
  | validationError
deriving DecidableEq, Repr

namespace RuleFixer

/-- Embeds `RuleFixer.insertText` from src/lib/util/rule-fixer.js: returns
`{range:[index,index], text}`; the body contains no throw. -/
def insertText (index : Int) (text : List Char) : Except BuilderError Edit :=
  Except.ok { range := (index, index), text := text }

/-- Embeds `RuleFixer.insertTextAfter`: calls `insertText(range[1], text)`. -/
def insertTextAfter (range : Int × Int) (text : List Char) : Except BuilderError Edit :=
  insertText range.2 text

/-- Embeds `RuleFixer.insertTextBefore`: calls `insertText(range[0], text)`. -/
def insertTextBefore (range : Int × Int) (text : List Char) : Except BuilderError Edit :=
  insertText range.1 text

/-- Embeds `RuleFixer.replaceText`: returns `{range, text}`; no validation. -/
def replaceText (range : Int × Int) (text : List Char) : Except BuilderError Edit :=
  Except.ok { range := range, text := text }

/-- Embeds `RuleFixer.removeText`: returns `{range, text:""}`; no validation. -/
def removeText (range : Int × Int) : Except BuilderError Edit :=
  Except.ok { range := range, text := [] }

end RuleFixer

/-- A diagnostic: a message plus optionally one edit (`fix`). -/
structure Diagnostic where
  message : List Char
  fix : Option Edit := none
deriving DecidableEq, Repr

/-- The result of a fix pass: rewritten output, the unapplied diagnostics,
and whether anything was committed. -/
structure FixResult where
  output : List Char
  messages : List Diagnostic
  fixed : Bool
deriving DecidableEq, Repr

/-- Modelled from the spec: the applier fails with a `RangeError` on an
out-of-bounds edit range. -/
inductive ApplyError
  | rangeError
deriving DecidableEq, Repr

/-- Character range `[a, b)` of a text, offsets clamped to the text as in
JavaScript `String.prototype.slice`. -/
def slice (s : List Char) (a b : Int) : List Char :=
  (s.take b.toNat).drop a.toNat

/-- Modelled from the spec (step 1): the diagnostics that carry an edit,
paired with that edit, in input order. -/
def withEdit (ds : List Diagnostic) : List (Diagnostic × Edit) :=
  ds.filterMap fun d => d.fix.map fun e => (d, e)

/-- Modelled from the spec (step 1): the diagnostics without an edit, in
input order. -/
def withoutEdit (ds : List Diagnostic) : List Diagnostic :=
  ds.filter fun d => d.fix.isNone

/-- The sort order of spec step 2: by `(edit.start, edit.end)` descending.
`edgeGE a b` holds when `a` may precede `b`. -/
abbrev edgeGE (a b : Diagnostic × Edit) : Prop :=
  b.2.range.1 < a.2.range.1 ∨ (a.2.range.1 = b.2.range.1 ∧ b.2.range.2 ≤ a.2.range.2)

instance : IsTotal (Diagnostic × Edit) edgeGE :=
  ⟨by intro a b; unfold edgeGE; omega⟩

instance : IsTrans (Diagnostic × Edit) edgeGE :=
  ⟨by intro a b c; unfold edgeGE; omega⟩

/-- Modelled from the spec (step 2): stable sort of the edit-carrying
diagnostics by `(start, end)` descending. -/
def sortEdits (l : List (Diagnostic × Edit)) : List (Diagnostic × Edit) :=
  l.insertionSort edgeGE

/-- Modelled from the spec (steps 3-4): right-to-left pass.  State is the
cursor, the output accumulated so far (built back-to-front by prepending),
and the rejected diagnostics. -/
def runEdits (source : List Char) :
    List (Diagnostic × Edit) → Int → List Char → List Diagnostic →
      Int × List Char × List Diagnostic
  | [], cursor, out, rej => (cursor, out, rej)
  | (d, e) :: rest, cursor, out, rej =>
    if e.range.2 ≤ cursor then
      runEdits source rest e.range.1 (e.text ++ slice source e.range.2 cursor ++ out) rej
    else
      runEdits source rest cursor out (rej ++ [d])

/-- Modelled from the spec (failure semantics): an edit whose `end` exceeds
the source length is out of bounds. -/
def outOfBounds (source : List Char) (de : Diagnostic × Edit) : Bool :=
  decide ((source.length : Int) < de.2.range.2)

/-- Modelled from the spec: `applyFixes(source, diagnostics)`.  The applier
itself is absent from the source tree (only its test file is present); this
definition follows spec section 4.2 step by step and reproduces every
concrete scenario of the test file. -/
def applyFixes (source : List Char) (diagnostics : List Diagnostic) :
    Except ApplyError FixResult :=
  if (withEdit diagnostics).any (outOfBounds source) then
    Except.error ApplyError.rangeError
  else
    Except.ok
      { output := slice source 0
            (runEdits source (sortEdits (withEdit diagnostics)) (source.length : Int) [] []).1
          ++ (runEdits source (sortEdits (withEdit diagnostics)) (source.length : Int) [] []).2.1,
        messages := withoutEdit diagnostics
          ++ (runEdits source (sortEdits (withEdit diagnostics)) (source.length : Int) [] []).2.2,
        fixed := decide
          ((runEdits source (sortEdits (withEdit diagnostics)) (source.length : Int) [] []).2.2.length
            < (withEdit diagnostics).length) }

/-- Ghost function: the edits the right-to-left pass commits, in processing
(right-to-left) order. -/
def committedEdits : List (Diagnostic × Edit) → Int → List Edit
  | [], _ => []
  | (_, e) :: rest, cursor =>
    if e.range.2 ≤ cursor then e :: committedEdits rest e.range.1
    else committedEdits rest cursor

/-- Ghost function: the diagnostics the right-to-left pass rejects, in
processing order. -/
def rejectedDiags : List (Diagnostic × Edit) → Int → List Diagnostic
  | [], _ => []
  | (d, e) :: rest, cursor =>
    if e.range.2 ≤ cursor then rejectedDiags rest e.range.1
    else d :: rejectedDiags rest cursor

/-- Ghost function: the cursor after the right-to-left pass. -/
def finalCursor : List (Diagnostic × Edit) → Int → Int
  | [], cursor => cursor
  | (_, e) :: rest, cursor =>
    if e.range.2 ≤ cursor then finalCursor rest e.range.1
    else finalCursor rest cursor

/-- Ghost function: the text the right-to-left pass builds to the right of
the final cursor. -/
def builtOut (source : List Char) : List (Diagnostic × Edit) → Int → List Char
  | [], _ => []
  | (_, e) :: rest, cursor =>
    if e.range.2 ≤ cursor then
      builtOut source rest e.range.1 ++ e.text ++ slice source e.range.2 cursor
    else builtOut source rest cursor

/-- Left-to-right assembly of an output from a list of edits: untouched
source slices interleaved with the full replacement text of each edit, and
nothing else. -/
def render (source : List Char) : List Edit → Int → Int → List Char
  | [], pos, stop => slice source pos stop
  | e :: rest, pos, stop =>
    slice source pos e.range.1 ++ e.text ++ render source rest e.range.2 stop

/-- The edits carried by a diagnostic list, in input order. -/
def editsOf (ds : List Diagnostic) : List Edit :=
  ds.filterMap fun d => d.fix

/-- The edits of the diagnostics are pairwise non-conflicting: their
half-open ranges are pairwise disjoint. -/
def NonConflicting (ds : List Diagnostic) : Prop :=
  (editsOf ds).Pairwise fun e f => e.range.2 ≤ f.range.1 ∨ f.range.2 ≤ e.range.1

/-- No two edits of the diagnostics share the same `(start, end)` range. -/
def DistinctRanges (ds : List Diagnostic) : Prop :=
  (editsOf ds).Pairwise fun e f => e.range ≠ f.range

/-- Projection of an applier result onto its output text. -/
def outputOf (r : Except ApplyError FixResult) : Except ApplyError (List Char) :=
  r.map FixResult.output

/-- The test file's source text `"var answer = 6 * 7;"`. -/
def testCode : List Char := "var answer = 6 * 7;".toList

/-- The test file's `REMOVE_MIDDLE` diagnostic: `{range:[5,10], text:""}`. -/
def removeMiddle : Diagnostic :=
  { message := "removemiddle".toList, fix := some { range := (5, 10), text := [] } }

/-- The test file's `REPLACE_ID` diagnostic: `{range:[4,10], text:"foo"}`. -/
def replaceId : Diagnostic :=
  { message := "foo".toList, fix := some { range := (4, 10), text := "foo".toList } }

/-- A diagnostic inserting `"x"` at offset 1. -/
def insX : Diagnostic :=
  { message := "x".toList, fix := some { range := (1, 1), text := "x".toList } }

/-- A diagnostic inserting `"y"` at offset 1. -/
def insY : Diagnostic :=
  { message := "y".toList, fix := some { range := (1, 1), text := "y".toList } }

/-- A diagnostic replacing range `[1,2)` by `"Z"`. -/
def editZ : Diagnostic :=
  { message := "z".toList, fix := some { range := (1, 2), text := "Z".toList } }

/-- A diagnostic replacing range `[1,3)` by `"W"`; conflicts with `editZ`. -/
def editW : Diagnostic :=
  { message := "w".toList, fix := some { range := (1, 3), text := "W".toList } }

/-- A diagnostic carrying no edit at all. -/
def msgOnly : Diagnostic := { message := "m".toList }

/-- A diagnostic whose edit range end `5` exceeds the length of `"ab"`. -/
def oobDiag : Diagnostic :=
  { message := "m".toList, fix := some { range := (0, 5), text := "w".toList } }

/-- A diagnostic replacing range `[3,4)` by `"V"`; disjoint from `editZ`. -/
def editV : Diagnostic :=
  { message := "v".toList, fix := some { range := (3, 4), text := "V".toList } }

/-- The strict part of the sort order: `(start, end)` strictly greater in
lexicographic order. -/
def edgeGT (a b : Diagnostic × Edit) : Prop :=
  b.2.range.1 < a.2.range.1 ∨ (a.2.range.1 = b.2.range.1 ∧ b.2.range.2 < a.2.range.2)

theorem runEdits_eq (source : List Char) :
    ∀ (l : List (Diagnostic × Edit)) (cursor : Int) (out : List Char) (rej : List Diagnostic),
      runEdits source l cursor out rej =
        (finalCursor l cursor, builtOut source l cursor ++ out, rej ++ rejectedDiags l cursor) := by
  intro l
  induction l with
  | nil => intro cursor out rej; simp [runEdits, finalCursor, builtOut, rejectedDiags]
  | cons de rest ih =>
    intro cursor out rej
    obtain ⟨d, e⟩ := de
    by_cases h : e.range.2 ≤ cursor
    · simp [runEdits, finalCursor, builtOut, rejectedDiags, h, ih, List.append_assoc]
    · simp [runEdits, finalCursor, builtOut, rejectedDiags, h, ih]

theorem render_append (source : List Char) (e : Edit) :
    ∀ (xs : List Edit) (pos stop : Int),
      render source (xs ++ [e]) pos stop =
        render source xs pos e.range.1 ++ e.text ++ slice source e.range.2 stop := by
  intro xs
  induction xs with
  | nil => intro pos stop; simp [render]
  | cons f rest ih => intro pos stop; simp [render, ih, List.append_assoc]

theorem built_render (source : List Char) :
    ∀ (l : List (Diagnostic × Edit)) (cursor : Int),
      slice source 0 (finalCursor l cursor) ++ builtOut source l cursor =
        render source (committedEdits l cursor).reverse 0 cursor := by
  intro l
  induction l with
  | nil => intro cursor; simp [finalCursor, builtOut, committedEdits, render]
  | cons de rest ih =>
    intro cursor
    obtain ⟨d, e⟩ := de
    by_cases h : e.range.2 ≤ cursor
    · simp only [finalCursor, builtOut, committedEdits, if_pos h, List.reverse_cons]
      rw [render_append, ← ih e.range.1]
      simp [List.append_assoc]
    · simp only [finalCursor, builtOut, committedEdits, if_neg h]
      exact ih cursor

theorem committed_head_le :
    ∀ (l : List (Diagnostic × Edit)) (cursor : Int) (e : Edit) (rest : List Edit),
      committedEdits l cursor = e :: rest → e.range.2 ≤ cursor := by
  intro l
  induction l with
  | nil => intro cursor e rest h; simp [committedEdits] at h
  | cons de l' ih =>
    intro cursor e rest h
    obtain ⟨d, f⟩ := de
    by_cases hf : f.range.2 ≤ cursor
    · rw [committedEdits, if_pos hf] at h
      obtain ⟨rfl, -⟩ := List.cons.inj h
      exact hf
    · rw [committedEdits, if_neg hf] at h
      exact ih cursor e rest h

theorem committed_chain :
    ∀ (l : List (Diagnostic × Edit)) (cursor : Int),
      List.Chain' (fun a b => b.range.2 ≤ a.range.1) (committedEdits l cursor) := by
  intro l
  induction l with
  | nil => intro cursor; simp [committedEdits]
  | cons de rest ih =>
    intro cursor
    obtain ⟨d, e⟩ := de
    by_cases h : e.range.2 ≤ cursor
    · rw [committedEdits, if_pos h, List.chain'_cons']
      refine ⟨?_, ih e.range.1⟩
      intro b hb
      cases hcl : committedEdits rest e.range.1 with
      | nil => rw [hcl] at hb; simp at hb
      | cons c cs =>
        rw [hcl] at hb
        simp only [List.head?_cons, Option.mem_def, Option.some.injEq] at hb
        subst hb
        exact committed_head_le rest e.range.1 c cs hcl
    · rw [committedEdits, if_neg h]
      exact ih cursor

theorem committed_sublist :
    ∀ (l : List (Diagnostic × Edit)) (cursor : Int),
      (committedEdits l cursor).Sublist (l.map Prod.snd) := by
  intro l
  induction l with
  | nil => intro cursor; simp [committedEdits]
  | cons de rest ih =>
    intro cursor
    obtain ⟨d, e⟩ := de
    by_cases h : e.range.2 ≤ cursor
    · rw [committedEdits, if_pos h, List.map_cons]
      exact (ih e.range.1).cons₂ e
    · rw [committedEdits, if_neg h, List.map_cons]
      exact (ih cursor).cons e

theorem committed_rejected_length :
    ∀ (l : List (Diagnostic × Edit)) (cursor : Int),
      (committedEdits l cursor).length + (rejectedDiags l cursor).length = l.length := by
  intro l
  induction l with
  | nil => intro cursor; simp [committedEdits, rejectedDiags]
  | cons de rest ih =>
    intro cursor
    obtain ⟨d, e⟩ := de
    by_cases h : e.range.2 ≤ cursor
    · simp only [committedEdits, rejectedDiags, if_pos h, List.length_cons]
      rw [← ih e.range.1]; omega
    · simp only [committedEdits, rejectedDiags, if_neg h, List.length_cons]
      rw [← ih cursor]; omega

theorem any_eq_of_perm {α : Type} (p : α → Bool) {l₁ l₂ : List α} (h : l₁.Perm l₂) :
    l₁.any p = l₂.any p := by
  have key : ∀ b c : Bool, (b = true ↔ c = true) → b = c := by decide
  apply key
  simp only [List.any_eq_true]
  constructor
  · rintro ⟨x, hx, px⟩; exact ⟨x, h.mem_iff.mp hx, px⟩
  · rintro ⟨x, hx, px⟩; exact ⟨x, h.mem_iff.mpr hx, px⟩

/-- C7: the Edit Builder operations satisfy exactly their defining equations
for every index, range and text: `insertText` builds a collapsed range at the
index, `insertTextBefore`/`insertTextAfter` delegate to `insertText` at the
range's start/end, `replaceText` passes the range and text through, and
`removeText` is replacement by empty text. -/
theorem builder_defining_equations (index : Int) (r : Int × Int) (t : List Char) :
    RuleFixer.insertText index t = Except.ok { range := (index, index), text := t } ∧
    RuleFixer.insertTextBefore r t = RuleFixer.insertText r.1 t ∧
    RuleFixer.insertTextAfter r t = RuleFixer.insertText r.2 t ∧
    RuleFixer.replaceText r t = Except.ok { range := r, text := t } ∧
    RuleFixer.removeText r = Except.ok { range := r, text := [] } :=
  ⟨rfl, rfl, rfl, rfl, rfl⟩

/-- C10: every Edit Builder operation is total and never raises any error for
any arguments whatsoever — negative indices, inverted ranges included — always
returning an Edit; no input validation is performed at construction time. -/
theorem builder_total (index : Int) (r : Int × Int) (t : List Char) :
    (RuleFixer.insertText index t).isOk = true ∧
    (RuleFixer.insertTextBefore r t).isOk = true ∧
    (RuleFixer.insertTextAfter r t).isOk = true ∧
    (RuleFixer.replaceText r t).isOk = true ∧
    (RuleFixer.removeText r).isOk = true :=
  ⟨rfl, rfl, rfl, rfl, rfl⟩

/-- C5 counterexample: the claim that a range-taking builder call whose range
violates the precondition (start > end, or a negative offset) fails at
construction time with a ValidationError is false: `replaceText (5,2) []`
succeeds even though `5 > 2`. -/
theorem builder_validation_counterexample :
    ¬ (∀ (r : Int × Int) (t : List Char),
        r.2 < r.1 ∨ r.1 < 0 ∨ r.2 < 0 →
          RuleFixer.replaceText r t = Except.error BuilderError.validationError) := by
  intro h
  have h52 : ((5 : Int), (2 : Int)).2 < ((5 : Int), (2 : Int)).1 := by norm_num
  have := h (5, 2) [] (Or.inl h52)
  exact absurd this (by simp [RuleFixer.replaceText])

/-- C5 amended: the Edit Builder performs no construction-time validation: a
call whose range violates the precondition (start > end, or a negative
offset) does not fail — each range-taking operation still returns its Edit
unchanged, and no error is raised for any input. -/
theorem builder_no_validation (r : Int × Int) (t : List Char)
    (_h : r.2 < r.1 ∨ r.1 < 0 ∨ r.2 < 0) :
    RuleFixer.replaceText r t = Except.ok { range := r, text := t } ∧
    RuleFixer.removeText r = Except.ok { range := r, text := [] } ∧
    RuleFixer.insertTextBefore r t = Except.ok { range := (r.1, r.1), text := t } ∧
    RuleFixer.insertTextAfter r t = Except.ok { range := (r.2, r.2), text := t } :=
  ⟨rfl, rfl, rfl, rfl⟩

/-- Witness for the amended C5 at the concrete invalid range `(5, 2)`. -/
theorem builder_no_validation_witness :
    (((5 : Int), (2 : Int)).2 < ((5 : Int), (2 : Int)).1 ∨ ((5 : Int), (2 : Int)).1 < 0 ∨
        ((5 : Int), (2 : Int)).2 < 0) ∧
    (RuleFixer.replaceText (5, 2) ['a'] = Except.ok { range := (5, 2), text := ['a'] } ∧
      RuleFixer.removeText (5, 2) = Except.ok { range := (5, 2), text := [] } ∧
      RuleFixer.insertTextBefore (5, 2) ['a'] = Except.ok { range := (5, 5), text := ['a'] } ∧
      RuleFixer.insertTextAfter (5, 2) ['a'] = Except.ok { range := (2, 2), text := ['a'] }) :=
  ⟨Or.inl (by norm_num), builder_no_validation (5, 2) ['a'] (Or.inl (by norm_num))⟩

/-- C4: on `"var answer = 6 * 7;"`, the conflicting edits `{range:[5,10],
text:""}` and `{range:[4,10], text:"foo"}` — in either input order — yield
output `"var a = 6 * 7;"` with exactly the one surviving diagnostic owning
the rejected `{range:[4,10]}` edit: the edit with the larger start offset is
committed, the other rejected. -/
theorem overlap_scenario :
    applyFixes testCode [removeMiddle, replaceId] =
      Except.ok { output := "var a = 6 * 7;".toList, messages := [replaceId], fixed := true } ∧
    applyFixes testCode [replaceId, removeMiddle] =
      Except.ok { output := "var a = 6 * 7;".toList, messages := [replaceId], fixed := true } ∧
    (removeMiddle.fix.map fun e => e.range) = some (5, 10) ∧
    (replaceId.fix.map fun e => e.range) = some (4, 10) :=
  ⟨rfl, rfl, rfl, rfl⟩

/-- C2: every edit is applied in full or not at all: for every successful
call to `applyFixes`, the output is exactly the left-to-right assembly of
untouched source slices interleaved with the full replacement texts of the
committed edits; a rejected edit's text contributes zero characters. -/
theorem rejected_edits_invisible (s : List Char) (ds : List Diagnostic) (r : FixResult)
    (h : applyFixes s ds = Except.ok r) :
    r.output =
      render s ((committedEdits (sortEdits (withEdit ds)) (s.length : Int)).reverse) 0
        (s.length : Int) := by
  unfold applyFixes at h
  by_cases hc : (withEdit ds).any (outOfBounds s) = true
  · rw [if_pos hc] at h
    exact absurd h (by simp)
  · rw [if_neg hc] at h
    have hr := Except.ok.inj h
    subst hr
    show slice s 0 (runEdits s (sortEdits (withEdit ds)) (s.length : Int) [] []).1
        ++ (runEdits s (sortEdits (withEdit ds)) (s.length : Int) [] []).2.1 = _
    rw [runEdits_eq]
    simp only [List.append_nil]
    exact built_render s _ _

/-- Witness for C2 on `"abcd"` with the conflicting edits `editZ` and
`editW`: `editW` is committed, `editZ` rejected, and the output `"aWd"` is
the render of the committed edits alone. -/
theorem rejected_edits_invisible_witness :
    applyFixes "abcd".toList [editZ, editW] =
      Except.ok { output := "aWd".toList, messages := [editZ], fixed := true } ∧
    ({ output := "aWd".toList, messages := [editZ], fixed := true } : FixResult).output =
      render "abcd".toList
        ((committedEdits (sortEdits (withEdit [editZ, editW]))
          (("abcd".toList).length : Int)).reverse) 0 (("abcd".toList).length : Int) :=
  ⟨rfl, rejected_edits_invisible _ _ _ rfl⟩

/-- C3: for every call to `applyFixes`, the committed edits, in output
(left-to-right) order, are sorted by start offset and every adjacent pair
satisfies `edit_i.end ≤ edit_{i+1}.start` — pairwise non-overlapping. -/
theorem committed_non_overlapping (s : List Char) (ds : List Diagnostic) :
    List.Chain' (fun a b => a.range.2 ≤ b.range.1)
      ((committedEdits (sortEdits (withEdit ds)) (s.length : Int)).reverse) ∧
    List.Pairwise (fun a b => a.range.1 ≤ b.range.1)
      ((committedEdits (sortEdits (withEdit ds)) (s.length : Int)).reverse) := by
  constructor
  · rw [List.chain'_reverse]
    exact committed_chain _ _
  · rw [List.pairwise_reverse]
    have hs : List.Pairwise edgeGE (sortEdits (withEdit ds)) :=
      List.sorted_insertionSort edgeGE (withEdit ds)
    have hmap : List.Pairwise (fun (a b : Edit) => b.range.1 ≤ a.range.1)
        ((sortEdits (withEdit ds)).map Prod.snd) := by
      rw [List.pairwise_map]
      refine hs.imp ?_
      intro a b hab
      unfold edgeGE at hab
      omega
    exact List.Pairwise.sublist (committed_sublist _ _) hmap

/-- C6: no-op law: when no diagnostic carries an edit (in particular for the
empty list), `applyFixes` returns the source unchanged as output and the
input diagnostics unchanged in content and order as messages. -/
theorem noop_law (s : List Char) (ds : List Diagnostic)
    (h : ∀ d ∈ ds, d.fix = none) :
    applyFixes s ds = Except.ok { output := s, messages := ds, fixed := false } := by
  have hwe : withEdit ds = [] := by
    unfold withEdit
    rw [List.filterMap_eq_nil_iff]
    intro d hd
    rw [h d hd]
    rfl
  have hwo : withoutEdit ds = ds := by
    unfold withoutEdit
    rw [List.filter_eq_self]
    intro d hd
    rw [h d hd]
    rfl
  unfold applyFixes
  rw [hwe, hwo]
  simp [sortEdits, List.insertionSort, runEdits, slice, Int.toNat_natCast]

/-- Witness for C6: one edit-less diagnostic over `"ab"` passes through. -/
theorem noop_law_witness :
    (∀ d ∈ [msgOnly], d.fix = none) ∧
    applyFixes "ab".toList [msgOnly] =
      Except.ok { output := "ab".toList, messages := [msgOnly], fixed := false } := by
  have hh : ∀ d ∈ [msgOnly], d.fix = none := by
    intro d hd
    rw [List.mem_singleton] at hd
    subst hd
    rfl
  exact ⟨hh, noop_law _ _ hh⟩

/-- C8: for every successful call to `applyFixes`, the `fixed` field — which
the algorithm computes as `|rejected| < |withEdit|` — is true exactly when at
least one edit was actually committed during the pass. -/
theorem fixed_iff_committed (s : List Char) (ds : List Diagnostic) (r : FixResult)
    (h : applyFixes s ds = Except.ok r) :
    (r.fixed = true ↔ committedEdits (sortEdits (withEdit ds)) (s.length : Int) ≠ []) := by
  unfold applyFixes at h
  by_cases hc : (withEdit ds).any (outOfBounds s) = true
  · rw [if_pos hc] at h
    exact absurd h (by simp)
  · rw [if_neg hc] at h
    have hr := Except.ok.inj h
    subst hr
    show decide ((runEdits s (sortEdits (withEdit ds)) (s.length : Int) [] []).2.2.length
        < (withEdit ds).length) = true ↔ _
    rw [runEdits_eq]
    simp only [List.nil_append, decide_eq_true_eq]
    have h1 := committed_rejected_length (sortEdits (withEdit ds)) (s.length : Int)
    have h2 : (sortEdits (withEdit ds)).length = (withEdit ds).length :=
      (List.perm_insertionSort edgeGE (withEdit ds)).length_eq
    constructor
    · intro hlt
      rw [← List.length_pos]
      omega
    · intro hne
      have h3 := List.length_pos.mpr hne
      omega

/-- Witness for C8: inserting `"x"` at offset 1 of `"ab"` commits one edit
and reports `fixed = true`. -/
theorem fixed_iff_committed_witness :
    applyFixes "ab".toList [insX] =
      Except.ok { output := "axb".toList, messages := [], fixed := true } ∧
    (({ output := "axb".toList, messages := [], fixed := true } : FixResult).fixed = true ↔
      committedEdits (sortEdits (withEdit [insX])) (("ab".toList).length : Int) ≠ []) :=
  ⟨rfl, fixed_iff_committed _ _ _ rfl⟩

/-- C9: a diagnostic carrying an edit whose range end exceeds the source
length makes `applyFixes` fail with a RangeError instead of truncating the
range or committing the edit. -/
theorem out_of_bounds_range_error (s : List Char) (ds : List Diagnostic) (d : Diagnostic)
    (e : Edit) (hd : d ∈ ds) (hf : d.fix = some e) (hb : (s.length : Int) < e.range.2) :
    applyFixes s ds = Except.error ApplyError.rangeError := by
  unfold applyFixes
  rw [if_pos]
  rw [List.any_eq_true]
  refine ⟨(d, e), ?_, ?_⟩
  · unfold withEdit
    rw [List.mem_filterMap]
    refine ⟨d, hd, ?_⟩
    rw [hf]
    rfl
  · unfold outOfBounds
    exact decide_eq_true hb

/-- Witness for C9: an edit ending at 5 over the 2-character source `"ab"`
triggers the RangeError. -/
theorem out_of_bounds_range_error_witness :
    oobDiag ∈ [oobDiag] ∧
    oobDiag.fix = some { range := (0, 5), text := "w".toList } ∧
    ((("ab".toList).length : Int) <
      ({ range := (0, 5), text := "w".toList } : Edit).range.2) ∧
    applyFixes "ab".toList [oobDiag] = Except.error ApplyError.rangeError :=
  ⟨List.mem_singleton.mpr rfl, rfl, by decide,
    out_of_bounds_range_error "ab".toList [oobDiag] oobDiag
      { range := (0, 5), text := "w".toList }
      (List.mem_singleton.mpr rfl) rfl (by decide)⟩

theorem edgeGT_asymm (a b : Diagnostic × Edit) : edgeGT a b → edgeGT b a → False := by
  unfold edgeGT
  omega

theorem edgeGE_ne_gt {a b : Diagnostic × Edit} (hge : edgeGE a b)
    (hne : a.2.range ≠ b.2.range) : edgeGT a b := by
  unfold edgeGE at hge
  unfold edgeGT
  simp only [ne_eq, Prod.ext_iff] at hne
  omega

theorem map_snd_withEdit (ds : List Diagnostic) :
    (withEdit ds).map Prod.snd = editsOf ds := by
  unfold withEdit editsOf
  induction ds with
  | nil => rfl
  | cons d t ih =>
    cases h : d.fix with
    | none => simp [List.filterMap_cons, h, ih]
    | some e => simp [List.filterMap_cons, h, ih]

theorem eq_of_perm_of_pairwise {α : Type} {r : α → α → Prop}
    (asym : ∀ a b, r a b → r b a → False) :
    ∀ (l₁ l₂ : List α), l₁.Perm l₂ → l₁.Pairwise r → l₂.Pairwise r → l₁ = l₂ := by
  intro l₁
  induction l₁ with
  | nil =>
    intro l₂ hp _ _
    exact hp.nil_eq
  | cons a t ih =>
    intro l₂ hp h₁ h₂
    cases l₂ with
    | nil => exact absurd hp.eq_nil (List.cons_ne_nil a t)
    | cons b t₂ =>
      by_cases hab : a = b
      · subst hab
        rw [ih t₂ hp.cons_inv h₁.of_cons h₂.of_cons]
      · have ha : a ∈ t₂ := by
          have hm := hp.mem_iff.mp (List.mem_cons_self a t)
          rw [List.mem_cons] at hm
          exact hm.resolve_left hab
        have hb : b ∈ t := by
          have hm := hp.symm.mem_iff.mp (List.mem_cons_self b t₂)
          rw [List.mem_cons] at hm
          exact hm.resolve_left fun hh => hab hh.symm
        have rab : r a b := (List.pairwise_cons.mp h₁).1 b hb
        have rba : r b a := (List.pairwise_cons.mp h₂).1 a ha
        exact absurd rba fun hr => asym a b rab hr

theorem sortEdits_eq_of_perm {l₁ l₂ : List (Diagnostic × Edit)} (hp : l₁.Perm l₂)
    (hd : l₁.Pairwise fun a b => a.2.range ≠ b.2.range) :
    sortEdits l₁ = sortEdits l₂ := by
  have hperm : (sortEdits l₁).Perm (sortEdits l₂) :=
    (List.perm_insertionSort edgeGE l₁).trans
      (hp.trans (List.perm_insertionSort edgeGE l₂).symm)
  have hd₁ : (sortEdits l₁).Pairwise fun a b => a.2.range ≠ b.2.range :=
    ((List.perm_insertionSort edgeGE l₁).pairwise_iff fun h => Ne.symm h).mpr hd
  have hd₂ : (sortEdits l₂).Pairwise fun a b => a.2.range ≠ b.2.range :=
    ((List.perm_insertionSort edgeGE l₂).pairwise_iff fun h => Ne.symm h).mpr
      ((hp.pairwise_iff fun h => Ne.symm h).mp hd)
  have hs₁ : (sortEdits l₁).Pairwise edgeGE := List.sorted_insertionSort edgeGE l₁
  have hs₂ : (sortEdits l₂).Pairwise edgeGE := List.sorted_insertionSort edgeGE l₂
  have hgt₁ : (sortEdits l₁).Pairwise edgeGT :=
    (hs₁.and hd₁).imp fun hab => edgeGE_ne_gt hab.1 hab.2
  have hgt₂ : (sortEdits l₂).Pairwise edgeGT :=
    (hs₂.and hd₂).imp fun hab => edgeGE_ne_gt hab.1 hab.2
  exact eq_of_perm_of_pairwise edgeGT_asymm _ _ hperm hgt₁ hgt₂

/-- C1 counterexample: the determinism claim fails as stated: over the source
`"ab"`, two insertions at the same offset 1 are pairwise non-conflicting
(their half-open ranges are disjoint), yet swapping their input order changes
the output, because the sort key `(start, end)` does not discriminate between
them and the stable sort falls back to input order. -/
theorem determinism_counterexample :
    ¬ (∀ (s : List Char) (ds₁ ds₂ : List Diagnostic), ds₁.Perm ds₂ →
        NonConflicting ds₁ →
          outputOf (applyFixes s ds₁) = outputOf (applyFixes s ds₂)) := by
  intro h
  have hperm : List.Perm [insX, insY] [insY, insX] := List.Perm.swap insY insX []
  have hnc : NonConflicting [insX, insY] := by
    unfold NonConflicting editsOf
    decide
  have heq := h "ab".toList [insX, insY] [insY, insX] hperm hnc
  have h1 : outputOf (applyFixes "ab".toList [insX, insY]) =
      Except.ok "ayxb".toList := rfl
  have h2 : outputOf (applyFixes "ab".toList [insY, insX]) =
      Except.ok "axyb".toList := rfl
  rw [h1, h2] at heq
  exact absurd (Except.ok.inj heq) (by decide)

/-- C1 amended: permuting the input diagnostic order yields an identical
output provided the edits are pairwise non-conflicting AND no two edits share
the same `(start, end)` range (without the latter, two insertions at the same
offset leak input order — see the counterexample).  The processing order is
then determined solely by the `(start, end)`-descending sort. -/
theorem determinism_amended (s : List Char) (ds₁ ds₂ : List Diagnostic)
    (hperm : ds₁.Perm ds₂) (_hnc : NonConflicting ds₁) (hdr : DistinctRanges ds₁) :
    outputOf (applyFixes s ds₁) = outputOf (applyFixes s ds₂) := by
  have hwe : (withEdit ds₁).Perm (withEdit ds₂) := hperm.filterMap _
  have hany : (withEdit ds₁).any (outOfBounds s) = (withEdit ds₂).any (outOfBounds s) :=
    any_eq_of_perm _ hwe
  have hdwe : (withEdit ds₁).Pairwise fun a b => a.2.range ≠ b.2.range := by
    have h0 : ((withEdit ds₁).map Prod.snd).Pairwise fun e f : Edit => e.range ≠ f.range := by
      rw [map_snd_withEdit]
      exact hdr
    rw [List.pairwise_map] at h0
    exact h0
  have hsort := sortEdits_eq_of_perm hwe hdwe
  unfold outputOf applyFixes
  rw [hany, hsort]
  by_cases hb : (withEdit ds₂).any (outOfBounds s) = true
  · rw [if_pos hb, if_pos hb]
  · rw [if_neg hb, if_neg hb]
    rfl

/-- Witness for the amended C1: two disjoint, distinct-range edits over
`"abcd"` give the same output `"aZcV"` in either input order. -/
theorem determinism_amended_witness :
    List.Perm [editZ, editV] [editV, editZ] ∧
    NonConflicting [editZ, editV] ∧
    DistinctRanges [editZ, editV] ∧
    outputOf (applyFixes "abcd".toList [editZ, editV]) =
      outputOf (applyFixes "abcd".toList [editV, editZ]) :=
  ⟨List.Perm.swap editV editZ [],
    by unfold NonConflicting editsOf; decide,
    by unfold DistinctRanges editsOf; decide,
    determinism_amended "abcd".toList [editZ, editV] [editV, editZ]
      (List.Perm.swap editV editZ [])
      (by unfold NonConflicting editsOf; decide)
      (by unfold DistinctRanges editsOf; decide)⟩

end TextFix
